import Mathlib

/-!
Verification development for the photogrammetry importer.

The file embeds, as Lean definitions, the path-handling glue of
`photogrammetry_import_op.py` (the only source file available) together with
models of the file-handler subsystem (parsers, image resolver, transformation
chain, normalization pass) that the operators call into; the latter are
modelled from the specification, since their source is not part of `src/`.
All real-valued quantities are idealized to exact rational arithmetic, so
"within floating-point tolerance" becomes exact equality in the model.
-/

/-! ## Python path primitives

The operators use `os.path.dirname`, `os.path.join` and `os.path.isdir`.
We embed the POSIX semantics (`posixpath`), character-list based; the
filesystem is abstracted as a boolean predicate on paths. -/

/-- Everything of `l` up to and including the last `'/'` (empty if none):
embeds `p[:p.rfind(sep) + 1]` from `posixpath.dirname`. -/
def takeThroughLastSep (l : List Char) : List Char :=
  (l.reverse.dropWhile (fun c => c != '/')).reverse

/-- Remove the trailing run of `'/'` characters: embeds `head.rstrip(sep)`. -/
def rstripSep (l : List Char) : List Char :=
  (l.reverse.dropWhile (fun c => c == '/')).reverse

/-- Embeds `posixpath.dirname`: `head = p[:p.rfind('/') + 1]`, and the
trailing separators of `head` are stripped unless `head` is empty or consists
only of separators. -/
def dirnameChars (l : List Char) : List Char :=
  let head := takeThroughLastSep l
  if head.isEmpty || head.all (fun c => c == '/') then head else rstripSep head

/-- `os.path.dirname` on strings (POSIX semantics). -/
def pyDirname (s : String) : String :=
  ⟨dirnameChars s.data⟩

/-- Embeds `posixpath.join(a, b)`: `b` wins if absolute; otherwise it is
appended to `a`, inserting a separator unless `a` is empty or already ends
with one. -/
def pyJoin (a b : String) : String :=
  if b.data.head? = some '/' then b
  else if a.data = [] || a.data.getLast? = some '/' then a ++ b
  else a ++ "/" ++ b

/-- Embeds `get_default_image_path(reconstruction_fp, image_dp)` from
`photogrammetry_import_op.py` (lines 43-51).  `isDir` abstracts
`os.path.isdir`. -/
def get_default_image_path (isDir : String → Bool)
    (reconstruction_fp image_dp : String) : String :=
  if image_dp = "" then
    let image_default_same_dp := pyDirname reconstruction_fp
    let image_default_sub_dp := pyJoin image_default_same_dp "images"
    if isDir image_default_sub_dp then image_default_sub_dp
    else image_default_same_dp
  else image_dp

/-- Embeds the path preprocessing of `ImportColmap.execute` (line 74):
`path = os.path.dirname(self.directory)`. -/
def colmapModelPath (directory : String) : String :=
  pyDirname directory

/-! ### Decomposition lemmas for `pyDirname` -/

/-- Stripping trailing separators splits a list into the stripped part and a
run of separators, and the stripped part no longer ends in a separator. -/
theorem rstripSep_decomp (l : List Char) :
    ∃ k, l = rstripSep l ++ List.replicate k '/' ∧
      (rstripSep l).getLast? ≠ some '/' := by
  refine ⟨(l.reverse.takeWhile (fun c => c == '/')).length, ?_, ?_⟩
  · have hrep : l.reverse.takeWhile (fun c => c == '/') =
        List.replicate (l.reverse.takeWhile (fun c => c == '/')).length '/' :=
      List.eq_replicate_of_mem fun b hb => by
        simpa using List.mem_takeWhile_imp hb
    conv_lhs => rw [← l.reverse_reverse,
      ← List.takeWhile_append_dropWhile (fun c => c == '/') l.reverse]
    rw [List.reverse_append, rstripSep]
    congr 1
    rw [hrep, List.reverse_replicate, List.length_replicate]
  · rw [rstripSep, List.getLast?_reverse]
    have h := List.head?_dropWhile_not (fun c => c == '/') l.reverse
    intro hc
    rw [hc] at h
    simp at h

/-- When the input ends in a separator, the prefix up to and including the
last separator is the whole input. -/
theorem takeThroughLastSep_of_getLast_sep (l : List Char)
    (h : l.getLast? = some '/') : takeThroughLastSep l = l := by
  have hr : l.reverse.head? = some '/' := by rw [List.head?_reverse]; exact h
  cases hrev : l.reverse with
  | nil => rw [hrev] at hr; simp at hr
  | cons c cs =>
    rw [hrev] at hr
    have hc : c = '/' := by simpa using hr
    rw [takeThroughLastSep, hrev, List.dropWhile_cons, hc,
      if_neg (by simp), ← hc, ← hrev, List.reverse_reverse]

/-- Every list splits as the prefix through the last separator plus a
separator-free tail. -/
theorem takeThroughLastSep_split (l : List Char) :
    l = takeThroughLastSep l ++
      (l.reverse.takeWhile (fun c => c != '/')).reverse := by
  conv_lhs => rw [← l.reverse_reverse,
    ← List.takeWhile_append_dropWhile (fun c => c != '/') l.reverse]
  rw [List.reverse_append, takeThroughLastSep]

/-- C10 counterexample: for the directory string `/data/model//`, which ends
in a path separator, `os.path.dirname` (applied by `ImportColmap.execute`)
removes BOTH trailing separators, not only the single trailing one: the
result is `/data/model`, not `/data/model/`. -/
theorem c10_counterexample :
    "/data/model//".data.getLast? = some '/' ∧
      (⟨"/data/model//".data.dropLast⟩ : String) = "/data/model/" ∧
      colmapModelPath "/data/model//" = "/data/model" ∧
      colmapModelPath "/data/model//" ≠
        (⟨"/data/model//".data.dropLast⟩ : String) :=
  ⟨by decide, by decide, by decide, by decide⟩

/-- C10 (amended): `ImportColmap.execute` applies `os.path.dirname` to the
user-selected directory string before parsing. For a directory string ending
in a path separator, the whole trailing run of separators is removed (the
last path component is preserved), except that a string consisting solely of
separators is returned unchanged; for a directory string not ending in a
separator, the last path component (and the separator run before it) is
stripped, so the parent directory is what gets parsed. -/
theorem c10_colmap_dirname (s : String) :
    (s.data.getLast? = some '/' →
      ((s.data.all fun c => c == '/') = true → colmapModelPath s = s) ∧
      ((s.data.all fun c => c == '/') = false →
        ∃ k, 0 < k ∧
          s.data = (colmapModelPath s).data ++ List.replicate k '/' ∧
          (colmapModelPath s).data.getLast? ≠ some '/')) ∧
    (∀ c, s.data.getLast? = some c → c ≠ '/' →
      ∃ comp k, comp ≠ [] ∧ '/' ∉ comp ∧
        s.data = (colmapModelPath s).data ++ List.replicate k '/' ++ comp) := by
  have hdata : ∀ t : String, (colmapModelPath t).data = dirnameChars t.data :=
    fun _ => rfl
  constructor
  · intro hlast
    have htake : takeThroughLastSep s.data = s.data :=
      takeThroughLastSep_of_getLast_sep s.data hlast
    have hne : s.data ≠ [] := by
      intro h
      rw [h] at hlast
      simp at hlast
    have hemp : s.data.isEmpty = false := by
      cases h : s.data.isEmpty
      · rfl
      · exact absurd (List.isEmpty_iff.mp h) hne
    constructor
    · intro hall
      have hd : dirnameChars s.data = s.data := by
        simp [dirnameChars, htake, hall]
      show (⟨dirnameChars s.data⟩ : String) = s
      rw [hd]
    · intro hall
      have hd : dirnameChars s.data = rstripSep s.data := by
        simp [dirnameChars, htake, hall, hemp]
      obtain ⟨k, hk, hkl⟩ := rstripSep_decomp s.data
      refine ⟨k, ?_, ?_, ?_⟩
      · rcases Nat.eq_zero_or_pos k with h0 | h0
        · exfalso
          rw [h0, List.replicate_zero, List.append_nil] at hk
          rw [← hk] at hkl
          exact hkl hlast
        · exact h0
      · rw [hdata, hd]
        exact hk
      · rw [hdata, hd]
        exact hkl
  · intro c hc hcne
    have hsplit := takeThroughLastSep_split s.data
    have hr : s.data.reverse.head? = some c := by
      rw [List.head?_reverse]; exact hc
    have hcompne : (s.data.reverse.takeWhile fun x => x != '/').reverse ≠ [] := by
      cases hrev : s.data.reverse with
      | nil => rw [hrev] at hr; simp at hr
      | cons y ys =>
        rw [hrev] at hr
        have hy : y = c := by simpa using hr
        rw [List.takeWhile_cons, hy, if_pos (bne_iff_ne.mpr hcne)]
        simp
    have hnos : '/' ∉ (s.data.reverse.takeWhile fun x => x != '/').reverse := by
      intro hmem
      rw [List.mem_reverse] at hmem
      have := List.mem_takeWhile_imp hmem
      simp at this
    by_cases hcond : ((takeThroughLastSep s.data).isEmpty ||
        (takeThroughLastSep s.data).all fun c => c == '/') = true
    · refine ⟨_, 0, hcompne, hnos, ?_⟩
      have hd : dirnameChars s.data = takeThroughLastSep s.data := by
        simp only [dirnameChars, hcond, if_true]
      rw [hdata, hd, List.replicate_zero, List.append_nil]
      exact hsplit
    · have hcond' : ((takeThroughLastSep s.data).isEmpty ||
          (takeThroughLastSep s.data).all fun c => c == '/') = false := by
        simpa using hcond
      have hd : dirnameChars s.data = rstripSep (takeThroughLastSep s.data) := by
        simp [dirnameChars, hcond']
      obtain ⟨k, hk, _⟩ := rstripSep_decomp (takeThroughLastSep s.data)
      refine ⟨_, k, hcompne, hnos, ?_⟩
      rw [hdata, hd, ← hk]
      exact hsplit

/-- C10 witness: the amended behavior at the concrete directory strings
`/data/model/` (trailing separator run removed, last component kept) and
`/data/model` (last component stripped). -/
theorem c10_colmap_dirname_witness :
    (∃ k, 0 < k ∧
      "/data/model/".data =
        (colmapModelPath "/data/model/").data ++ List.replicate k '/' ∧
      (colmapModelPath "/data/model/").data.getLast? ≠ some '/') ∧
    (∃ comp k, comp ≠ [] ∧ '/' ∉ comp ∧
      "/data/model".data =
        (colmapModelPath "/data/model").data ++ List.replicate k '/' ++ comp) :=
  ⟨((c10_colmap_dirname "/data/model/").1 (by decide)).2 (by decide),
    (c10_colmap_dirname "/data/model").2 'l' (by decide) (by decide)⟩

/-! ## Unified data model

Modelled from the spec (section 3): the `Camera` and `Point` aggregate types
that every parser must produce, plus the error and warning kinds of
section 7.  Real-valued fields are idealized as rationals. -/

/-- Modelled from the spec: error kinds of section 7 (the file-handler code
that raises them is not under `src/`). -/
inductive ParseErr where
  | malformedFile (message : String)
  | missingReference (sect : String) (ref_id : Nat)
deriving DecidableEq

/-- Modelled from the spec: non-fatal warning kinds (section 7): unresolved
NVM image dimensions, and a measurement dropped for referencing an absent
camera. -/
inductive ImportWarning where
  | unresolvedImage (image_path : String)
  | droppedMeasurement (point_id : Nat) (camera_id : Nat)
deriving DecidableEq

/-- Modelled from the spec: the unified `Camera` aggregate (section 3);
`rotation` is a quaternion `(w, x, y, z)`.  The scalar type `α` idealizes
the source's real-valued fields as an exact numeric type (any field such as
`ℚ` instantiates it; witnesses use `ℤ`-valued data). -/
structure Camera (α : Type) where
  id : Nat
  image_path : String
  width : Option Nat
  height : Option Nat
  rotation : Fin 4 → α
  translation : Fin 3 → α

/-- Modelled from the spec: one `(camera_id, 2D pixel coordinate)` entry of a
point's measurement list (section 3). -/
structure Measurement (α : Type) where
  camera_id : Nat
  x : α
  y : α

/-- Modelled from the spec: the unified `Point` aggregate (section 3). -/
structure Point (α : Type) where
  id : Nat
  position : Fin 3 → α
  color : Fin 3 → α
  measurements : List (Measurement α)

/-! ## Rigid transforms and the transformation chain

Modelled from the spec (sections 3, 4.6): `TransformationFileHandler` is not
under `src/`; each file of the transformation directory encodes one rigid
transform, the files are ordered lexicographically by filename, and the
effective transform is the left-to-right composition. -/

/-- Modelled from the spec: a rigid transform (rotation + translation +
uniform scale), applied to a point `p` as `scale * rotation * p +
translation`. -/
structure RigidTransform (α : Type) where
  rotation : Matrix (Fin 3) (Fin 3) α
  translation : Fin 3 → α
  scale : α

/-- Apply a rigid transform to a point: `scale * rotation * p + translation`. -/
def RigidTransform.apply {α : Type} [CommRing α] (T : RigidTransform α)
    (p : Fin 3 → α) : Fin 3 → α :=
  T.scale • T.rotation.mulVec p + T.translation

/-- Left-to-right composition of a transform chain:
`T_effective = T_n ∘ … ∘ T_2 ∘ T_1` applied to `p`. -/
def applyChain {α : Type} [CommRing α] (ts : List (RigidTransform α))
    (p : Fin 3 → α) : Fin 3 → α :=
  ts.foldl (fun q T => T.apply q) p

/-- Lexicographic (code-point) order on filenames, as Python string
comparison used by `sorted`. -/
def charListLt : List Char → List Char → Bool
  | [], [] => false
  | [], _ :: _ => true
  | _ :: _, [] => false
  | a :: as, b :: bs => if a < b then true else if b < a then false else charListLt as bs

/-- Insert one named transform file into a filename-sorted list
(lexicographic order on filenames). -/
def insertByName {α : Type} (x : String × RigidTransform α) :
    List (String × RigidTransform α) → List (String × RigidTransform α)
  | [] => [x]
  | y :: ys => if charListLt x.1.data y.1.data then x :: y :: ys
    else y :: insertByName x ys

/-- Modelled from the spec: `TransformationFileHandler.parse_transformation_folder`
(called at `photogrammetry_import_op.py` line 263) orders the files of the
transformation directory lexicographically by filename and returns the
per-file transforms in that order.  The directory listing is abstracted as a
list of (filename, decoded transform) pairs. -/
def parse_transformation_folder {α : Type} (files : List (String × RigidTransform α)) :
    List (RigidTransform α) :=
  (files.foldr insertByName []).map Prod.snd

/-- Lexicographic order on char lists is asymmetric. -/
theorem charListLt_asymm : ∀ a b : List Char,
    charListLt a b = true → charListLt b a = false := by
  intro a
  induction a with
  | nil =>
    intro b h
    cases b with
    | nil => simp [charListLt] at h
    | cons y ys => simp [charListLt]
  | cons x xs ih =>
    intro b h
    cases b with
    | nil => simp [charListLt] at h
    | cons y ys =>
      unfold charListLt at h ⊢
      by_cases hxy : x < y
      · rw [if_neg (lt_asymm hxy), if_pos hxy]
      · by_cases hyx : y < x
        · rw [if_neg hxy, if_pos hyx] at h
          exact absurd h (by simp)
        · rw [if_neg hxy, if_neg hyx] at h
          rw [if_neg hyx, if_neg hxy]
          exact ih ys h

/-- C2: for two transformation files with lexicographically ordered names
defining transforms A then B, the composed effective transform applied to a
probe point equals applying A then B, and differs from applying B then A
whenever the two do not commute on that point. -/
theorem c2_transformation_chain_order {α : Type} [CommRing α]
    (fA fB : String) (A B : RigidTransform α)
    (p : Fin 3 → α) (h : charListLt fA.data fB.data = true) :
    applyChain (parse_transformation_folder [(fB, B), (fA, A)]) p =
      B.apply (A.apply p) ∧
    (B.apply (A.apply p) ≠ A.apply (B.apply p) →
      applyChain (parse_transformation_folder [(fB, B), (fA, A)]) p ≠
        A.apply (B.apply p)) := by
  have hnot : charListLt fB.data fA.data = false := charListLt_asymm _ _ h
  have hlist : parse_transformation_folder [(fB, B), (fA, A)] = [A, B] := by
    simp [parse_transformation_folder, insertByName, hnot]
  refine ⟨by rw [hlist]; rfl, ?_⟩
  intro hne
  rw [hlist]
  exact hne

/-- C2 witness: over `ℤ`, a 90-degree rotation about z (file `01_trafo.txt`)
followed by a unit translation along x (file `02_trafo.txt`), probed at
`(0,1,0)`: the chain applies the rotation first, and the two orders
disagree. -/
theorem c2_transformation_chain_order_witness :
    charListLt "01_trafo.txt".data "02_trafo.txt".data = true ∧
    (RigidTransform.apply (α := ℤ) ⟨1, ![1, 0, 0], 1⟩
        (RigidTransform.apply ⟨!![0, -1, 0; 1, 0, 0; 0, 0, 1], ![0, 0, 0], 1⟩
          ![0, 1, 0]) ≠
      RigidTransform.apply ⟨!![0, -1, 0; 1, 0, 0; 0, 0, 1], ![0, 0, 0], 1⟩
        (RigidTransform.apply ⟨1, ![1, 0, 0], 1⟩ ![0, 1, 0])) ∧
    (applyChain (α := ℤ)
        (parse_transformation_folder
          [("02_trafo.txt", ⟨1, ![1, 0, 0], 1⟩),
           ("01_trafo.txt", ⟨!![0, -1, 0; 1, 0, 0; 0, 0, 1], ![0, 0, 0], 1⟩)])
        ![0, 1, 0] =
      RigidTransform.apply ⟨1, ![1, 0, 0], 1⟩
        (RigidTransform.apply ⟨!![0, -1, 0; 1, 0, 0; 0, 0, 1], ![0, 0, 0], 1⟩
          ![0, 1, 0]) ∧
    (RigidTransform.apply (α := ℤ) ⟨1, ![1, 0, 0], 1⟩
        (RigidTransform.apply ⟨!![0, -1, 0; 1, 0, 0; 0, 0, 1], ![0, 0, 0], 1⟩
          ![0, 1, 0]) ≠
      RigidTransform.apply ⟨!![0, -1, 0; 1, 0, 0; 0, 0, 1], ![0, 0, 0], 1⟩
        (RigidTransform.apply ⟨1, ![1, 0, 0], 1⟩ ![0, 1, 0]) →
      applyChain
          (parse_transformation_folder
            [("02_trafo.txt", ⟨1, ![1, 0, 0], 1⟩),
             ("01_trafo.txt", ⟨!![0, -1, 0; 1, 0, 0; 0, 0, 1], ![0, 0, 0], 1⟩)])
          ![0, 1, 0] ≠
        RigidTransform.apply ⟨!![0, -1, 0; 1, 0, 0; 0, 0, 1], ![0, 0, 0], 1⟩
          (RigidTransform.apply ⟨1, ![1, 0, 0], 1⟩ ![0, 1, 0]))) :=
  ⟨by decide, by decide,
    c2_transformation_chain_order "01_trafo.txt" "02_trafo.txt"
      ⟨!![0, -1, 0; 1, 0, 0; 0, 0, 1], ![0, 0, 0], 1⟩ ⟨1, ![1, 0, 0], 1⟩
      ![0, 1, 0] (by decide)⟩

/-! ## Normalization pass -/

/-- The identity rigid transform: identity rotation, zero translation,
scale 1. -/
def identityTransform (α : Type) [CommRing α] : RigidTransform α :=
  ⟨1, 0, 1⟩

/-- Modelled from the spec: the transform-application step of the
normalization pass (section 4.7) — the composed rigid transform is applied
to every camera position and point position; the pass is pure. -/
def normalizeModel {α : Type} [CommRing α] (T : RigidTransform α)
    (cameras : List (Camera α)) (points : List (Point α)) :
    List (Camera α) × List (Point α) :=
  (cameras.map fun c => { c with translation := T.apply c.translation },
   points.map fun q => { q with position := T.apply q.position })

/-- C7: running the normalization pass with the identity transform leaves
all camera positions and point positions unchanged (exactly, in the
exact-arithmetic model). -/
theorem c7_identity_normalization {α : Type} [CommRing α]
    (cameras : List (Camera α)) (points : List (Point α)) :
    normalizeModel (identityTransform α) cameras points = (cameras, points) := by
  have happ : ∀ p, (identityTransform α).apply p = p := by
    intro p
    simp [RigidTransform.apply, identityTransform, Matrix.one_mulVec]
  unfold normalizeModel
  rw [show (fun c : Camera α =>
        { c with translation := (identityTransform α).apply c.translation }) = id
      from funext fun c => by rw [happ]; rfl,
    show (fun q : Point α =>
        { q with position := (identityTransform α).apply q.position }) = id
      from funext fun q => by rw [happ]; rfl,
    List.map_id, List.map_id]

/-- C7 witness: a concrete `ℤ`-valued camera and point pass through the
normalization with the identity transform unchanged. -/
theorem c7_identity_normalization_witness :
    normalizeModel (identityTransform ℤ)
      [⟨0, "a.jpg", some 1, some 1, ![1, 0, 0, 0], ![3, 4, 5]⟩]
      [⟨2, ![6, 7, 8], ![1, 1, 1], []⟩] =
      ([⟨0, "a.jpg", some 1, some 1, ![1, 0, 0, 0], ![3, 4, 5]⟩],
       [⟨2, ![6, 7, 8], ![1, 1, 1], []⟩]) :=
  c7_identity_normalization
    [⟨0, "a.jpg", some 1, some 1, ![1, 0, 0, 0], ![3, 4, 5]⟩]
    [⟨2, ![6, 7, 8], ![1, 1, 1], []⟩]

/-! ## Measurement resolution against the camera set

Modelled from the spec (section 3, Point invariant): a measurement whose
`camera_id` is absent from the import's camera set is dropped with a
reported warning, while the point itself is kept; the file-handler code
implementing this is not under `src/`. -/

/-- Modelled from the spec: drop the measurements of one point that
reference a camera id absent from `camera_ids`, reporting one warning per
dropped measurement. -/
def resolvePointMeasurements {α : Type} (camera_ids : List Nat) (p : Point α) :
    Point α × List ImportWarning :=
  ({ p with measurements :=
      p.measurements.filter fun m => decide (m.camera_id ∈ camera_ids) },
   (p.measurements.filter fun m => !decide (m.camera_id ∈ camera_ids)).map
     fun m => ImportWarning.droppedMeasurement p.id m.camera_id)

/-- Modelled from the spec: resolve every point's measurements against the
camera set of the same import, accumulating the warnings. -/
def resolveMeasurements {α : Type} (cameras : List (Camera α))
    (points : List (Point α)) : List (Point α) × List ImportWarning :=
  let camera_ids := cameras.map Camera.id
  (points.map fun p => (resolvePointMeasurements camera_ids p).1,
   (points.map fun p => (resolvePointMeasurements camera_ids p).2).flatten)

/-- C3: after resolution every surviving measurement references a camera of
the same import; every point is still returned (same ids, same order); and
each dropped measurement is reported by a warning.  The resolution is a
total function, so it never crashes or aborts. -/
theorem c3_measurements_reference_cameras {α : Type}
    (cameras : List (Camera α)) (points : List (Point α)) :
    (∀ p ∈ (resolveMeasurements cameras points).1,
      ∀ m ∈ p.measurements, m.camera_id ∈ cameras.map Camera.id) ∧
    (resolveMeasurements cameras points).1.map Point.id
      = points.map Point.id ∧
    (∀ p ∈ points, ∀ m ∈ p.measurements,
      m.camera_id ∉ cameras.map Camera.id →
        ImportWarning.droppedMeasurement p.id m.camera_id ∈
          (resolveMeasurements cameras points).2) := by
  refine ⟨?_, ?_, ?_⟩
  · intro p hp m hm
    simp only [resolveMeasurements, List.mem_map] at hp
    obtain ⟨q, _, rfl⟩ := hp
    simp only [resolvePointMeasurements, List.mem_filter] at hm
    exact of_decide_eq_true hm.2
  · simp only [resolveMeasurements, List.map_map]
    rfl
  · intro p hp m hm hnot
    simp only [resolveMeasurements, List.mem_flatten, List.mem_map]
    refine ⟨(resolvePointMeasurements (cameras.map Camera.id) p).2,
      ⟨p, hp, rfl⟩, ?_⟩
    simp only [resolvePointMeasurements, List.mem_map, List.mem_filter]
    refine ⟨m, ⟨hm, ?_⟩, rfl⟩
    simp only [Bool.not_eq_true', decide_eq_false_iff_not, List.mem_map]
    rintro ⟨a, ha, he⟩
    exact hnot (List.mem_map.mpr ⟨a, ha, he⟩)

/-- C3 witness: one camera with id 1, one point with measurements
referencing ids 1 and 2; the theorem instantiated there. -/
theorem c3_measurements_reference_cameras_witness :
    (∀ p ∈ (resolveMeasurements (α := ℤ)
        [⟨1, "a.jpg", none, none, ![1, 0, 0, 0], ![0, 0, 0]⟩]
        [⟨5, ![0, 0, 0], ![0, 0, 0], [⟨1, 3, 4⟩, ⟨2, 3, 4⟩]⟩]).1,
      ∀ m ∈ p.measurements, m.camera_id ∈
        ([⟨1, "a.jpg", none, none, ![1, 0, 0, 0], ![0, 0, 0]⟩] :
          List (Camera ℤ)).map Camera.id) ∧
    (resolveMeasurements (α := ℤ)
        [⟨1, "a.jpg", none, none, ![1, 0, 0, 0], ![0, 0, 0]⟩]
        [⟨5, ![0, 0, 0], ![0, 0, 0], [⟨1, 3, 4⟩, ⟨2, 3, 4⟩]⟩]).1.map Point.id
      = ([⟨5, ![0, 0, 0], ![0, 0, 0], [⟨1, 3, 4⟩, ⟨2, 3, 4⟩]⟩] :
          List (Point ℤ)).map Point.id ∧
    (∀ p ∈ ([⟨5, ![0, 0, 0], ![0, 0, 0], [⟨1, 3, 4⟩, ⟨2, 3, 4⟩]⟩] :
        List (Point ℤ)), ∀ m ∈ p.measurements,
      m.camera_id ∉ ([⟨1, "a.jpg", none, none, ![1, 0, 0, 0], ![0, 0, 0]⟩] :
          List (Camera ℤ)).map Camera.id →
        ImportWarning.droppedMeasurement p.id m.camera_id ∈
          (resolveMeasurements (α := ℤ)
            [⟨1, "a.jpg", none, none, ![1, 0, 0, 0], ![0, 0, 0]⟩]
            [⟨5, ![0, 0, 0], ![0, 0, 0], [⟨1, 3, 4⟩, ⟨2, 3, 4⟩]⟩]).2) :=
  c3_measurements_reference_cameras
    [⟨1, "a.jpg", none, none, ![1, 0, 0, 0], ![0, 0, 0]⟩]
    [⟨5, ![0, 0, 0], ![0, 0, 0], [⟨1, 3, 4⟩, ⟨2, 3, 4⟩]⟩]

/-! ## NVM image resolution

Modelled from the spec (section 4.2): `NVMFileHandler.parse_camera_image_files`
(called from `ImportNVM.enhance_camera_with_images`, lines 120-124) is not
under `src/`.  For every camera whose width/height is unset it probes the
referenced image file for its pixel dimensions; on failure the camera gets
the caller-supplied defaults and one `UnresolvedImage` warning, and the call
returns the cameras together with a success flag instead of failing. -/

/-- Replace a camera's pixel dimensions. -/
def Camera.withDims {α : Type} (c : Camera α) (w h : Nat) : Camera α :=
  { c with width := some w, height := some h }

/-- Modelled from the spec: resolve image dimensions for one camera.
`probe` abstracts opening an image file and reading its pixel dimensions. -/
def nvmResolveCamera {α : Type} (probe : String → Option (Nat × Nat))
    (image_dp : String) (default_width default_height : Nat)
    (c : Camera α) : Camera α × Option ImportWarning :=
  if c.width.isSome && c.height.isSome then (c, none)
  else
    match probe (pyJoin image_dp c.image_path) with
    | some (w, h) => (c.withDims w h, none)
    | none =>
        (c.withDims default_width default_height,
          some (ImportWarning.unresolvedImage c.image_path))

/-- Modelled from the spec: `resolve_images` over the whole camera list;
returns the cameras, a success flag (partial success when any image was
unresolved), and the accumulated per-camera warnings. -/
def nvm_resolve_images {α : Type} (probe : String → Option (Nat × Nat))
    (image_dp : String) (default_width default_height : Nat)
    (cameras : List (Camera α)) :
    List (Camera α) × Bool × List ImportWarning :=
  let results := cameras.map
    (nvmResolveCamera probe image_dp default_width default_height)
  let warnings := (results.map Prod.snd).reduceOption
  (results.map Prod.fst, warnings.isEmpty, warnings)

/-- Counting the `some` results of a map equals counting by a filter. -/
theorem reduceOption_map_length {β γ : Type} (g : β → Option γ) (l : List β) :
    ((l.map g).reduceOption).length = (l.filter fun b => (g b).isSome).length := by
  induction l with
  | nil => rfl
  | cons b bs ih =>
    cases hg : g b with
    | none => simpa [hg, List.reduceOption_cons_of_none] using ih
    | some w => simpa [hg, List.reduceOption_cons_of_some] using ih

/-- C4: every camera whose dimensions are unset and whose image probe fails
keeps the caller-supplied default width/height; exactly one
`UnresolvedImage` warning is reported per affected camera; the call returns
all cameras (same count) with a success indicator that is `true` exactly
when no camera was affected — it never fails the import. -/
theorem c4_unresolved_images_keep_defaults {α : Type}
    (probe : String → Option (Nat × Nat)) (image_dp : String)
    (default_width default_height : Nat) (cameras : List (Camera α)) :
    (nvm_resolve_images probe image_dp default_width default_height
        cameras).1.length = cameras.length ∧
    (∀ i (h1 : i < cameras.length)
        (h2 : i < (nvm_resolve_images probe image_dp default_width
          default_height cameras).1.length),
      ((cameras.get ⟨i, h1⟩).width.isSome &&
          (cameras.get ⟨i, h1⟩).height.isSome) = false →
      probe (pyJoin image_dp (cameras.get ⟨i, h1⟩).image_path) = none →
        (nvm_resolve_images probe image_dp default_width default_height
            cameras).1.get ⟨i, h2⟩ =
          (cameras.get ⟨i, h1⟩).withDims default_width default_height ∧
        ImportWarning.unresolvedImage (cameras.get ⟨i, h1⟩).image_path ∈
          (nvm_resolve_images probe image_dp default_width default_height
            cameras).2.2) ∧
    (nvm_resolve_images probe image_dp default_width default_height
        cameras).2.2.length =
      (cameras.filter fun c => !(c.width.isSome && c.height.isSome) &&
        (probe (pyJoin image_dp c.image_path)).isNone).length ∧
    ((nvm_resolve_images probe image_dp default_width default_height
        cameras).2.1 = true ↔
      (cameras.filter fun c => !(c.width.isSome && c.height.isSome) &&
        (probe (pyJoin image_dp c.image_path)).isNone) = []) := by
  refine ⟨by simp [nvm_resolve_images], ?_, ?_, ?_⟩
  · intro i h1 h2 hunset hprobe
    have hres : (nvm_resolve_images probe image_dp default_width
        default_height cameras).1.get ⟨i, h2⟩ =
        (nvmResolveCamera probe image_dp default_width default_height
          (cameras.get ⟨i, h1⟩)).1 := by
      simp [nvm_resolve_images, List.get_map]
    have hstep : nvmResolveCamera probe image_dp default_width default_height
        (cameras.get ⟨i, h1⟩) =
        ((cameras.get ⟨i, h1⟩).withDims default_width default_height,
          some (ImportWarning.unresolvedImage
            (cameras.get ⟨i, h1⟩).image_path)) := by
      rw [nvmResolveCamera, if_neg (by rw [hunset]; simp), hprobe]
    refine ⟨by rw [hres, hstep], ?_⟩
    have hmem : some (ImportWarning.unresolvedImage
        (cameras.get ⟨i, h1⟩).image_path) ∈
        (cameras.map (nvmResolveCamera probe image_dp default_width
          default_height)).map Prod.snd := by
      rw [List.map_map]
      exact List.mem_map.mpr ⟨cameras.get ⟨i, h1⟩, List.get_mem _ _ _,
        by rw [Function.comp_apply, hstep]⟩
    simpa [nvm_resolve_images, List.reduceOption_mem_iff] using hmem
  · rw [show (nvm_resolve_images probe image_dp default_width default_height
        cameras).2.2 = ((cameras.map (nvmResolveCamera probe image_dp
          default_width default_height)).map Prod.snd).reduceOption from rfl,
      List.map_map, reduceOption_map_length]
    congr 1
    apply List.filter_congr
    intro c _
    rw [Function.comp_apply]
    rw [nvmResolveCamera]
    cases hws : c.width.isSome && c.height.isSome with
    | true => simp [hws]
    | false =>
      cases hp : probe (pyJoin image_dp c.image_path) with
      | none => simp [hws, hp]
      | some wh => cases wh with | mk w h => simp [hws, hp]
  · have hlen : (nvm_resolve_images probe image_dp default_width
        default_height cameras).2.2.length =
        (cameras.filter fun c => !(c.width.isSome && c.height.isSome) &&
          (probe (pyJoin image_dp c.image_path)).isNone).length := by
      rw [show (nvm_resolve_images probe image_dp default_width default_height
          cameras).2.2 = ((cameras.map (nvmResolveCamera probe image_dp
            default_width default_height)).map Prod.snd).reduceOption from rfl,
        List.map_map, reduceOption_map_length]
      congr 1
      apply List.filter_congr
      intro c _
      rw [Function.comp_apply]
      rw [nvmResolveCamera]
      cases hws : c.width.isSome && c.height.isSome with
      | true => simp [hws]
      | false =>
        cases hp : probe (pyJoin image_dp c.image_path) with
        | none => simp [hws, hp]
        | some wh => cases wh with | mk w h => simp [hws, hp]
    constructor
    · intro hsucc
      rw [← List.length_eq_zero, ← hlen]
      have : (nvm_resolve_images probe image_dp default_width default_height
          cameras).2.2 = [] := by
        have := hsucc
        simpa [nvm_resolve_images, List.isEmpty_iff] using this
      rw [this]
      rfl
    · intro hfil
      have : (nvm_resolve_images probe image_dp default_width default_height
          cameras).2.2.length = 0 := by rw [hlen, hfil]; rfl
      have hnil := List.length_eq_zero.mp this
      simpa [nvm_resolve_images, List.isEmpty_iff] using hnil

/-- C4 witness: one camera with unset dimensions and a probe that always
fails: the camera keeps the defaults `(640, 480)`, one warning is reported,
and the call returns with success `false` rather than aborting. -/
theorem c4_unresolved_images_keep_defaults_witness :
    (nvm_resolve_images (α := ℤ) (fun _ => none) "/imgs" 640 480
        [⟨7, "a.jpg", none, none, ![1, 0, 0, 0], ![0, 0, 0]⟩]).1.length =
      ([⟨7, "a.jpg", none, none, ![1, 0, 0, 0], ![0, 0, 0]⟩] :
        List (Camera ℤ)).length ∧
    ((([⟨7, "a.jpg", none, none, ![1, 0, 0, 0], ![0, 0, 0]⟩] :
          List (Camera ℤ)).get ⟨0, by decide⟩).width.isSome &&
        (([⟨7, "a.jpg", none, none, ![1, 0, 0, 0], ![0, 0, 0]⟩] :
          List (Camera ℤ)).get ⟨0, by decide⟩).height.isSome) = false ∧
    (nvm_resolve_images (α := ℤ) (fun _ => none) "/imgs" 640 480
        [⟨7, "a.jpg", none, none, ![1, 0, 0, 0], ![0, 0, 0]⟩]).1.get
        ⟨0, by simp [nvm_resolve_images]⟩ =
      (([⟨7, "a.jpg", none, none, ![1, 0, 0, 0], ![0, 0, 0]⟩] :
          List (Camera ℤ)).get ⟨0, by decide⟩).withDims 640 480 ∧
    ImportWarning.unresolvedImage
        (([⟨7, "a.jpg", none, none, ![1, 0, 0, 0], ![0, 0, 0]⟩] :
          List (Camera ℤ)).get ⟨0, by decide⟩).image_path ∈
      (nvm_resolve_images (α := ℤ) (fun _ => none) "/imgs" 640 480
        [⟨7, "a.jpg", none, none, ![1, 0, 0, 0], ![0, 0, 0]⟩]).2.2 := by
  refine ⟨(c4_unresolved_images_keep_defaults (fun _ => none) "/imgs" 640 480
      [⟨7, "a.jpg", none, none, ![1, 0, 0, 0], ![0, 0, 0]⟩]).1, by decide, ?_, ?_⟩
  · exact ((c4_unresolved_images_keep_defaults (fun _ => none) "/imgs" 640 480
      [⟨7, "a.jpg", none, none, ![1, 0, 0, 0], ![0, 0, 0]⟩]).2.1 0 (by decide)
      (by simp [nvm_resolve_images]) (by decide) rfl).1
  · exact ((c4_unresolved_images_keep_defaults (fun _ => none) "/imgs" 640 480
      [⟨7, "a.jpg", none, none, ![1, 0, 0, 0], ![0, 0, 0]⟩]).2.1 0 (by decide)
      (by simp [nvm_resolve_images]) (by decide) rfl).2

/-! ## Fallible traversal

The file handlers abort a parse by raising an exception on the first bad
record; `mapExcept` models this: it maps a fallible function over a list and
propagates the first error. -/

/-- Map a fallible function over a list, stopping at the first error. -/
def mapExcept {ε β γ : Type} (f : β → Except ε γ) : List β → Except ε (List γ)
  | [] => .ok []
  | x :: xs =>
    match f x with
    | .error e => .error e
    | .ok y =>
      match mapExcept f xs with
      | .error e => .error e
      | .ok ys => .ok (y :: ys)

/-- If any element fails, the whole traversal fails (with the first error
encountered, which need not be the given one). -/
theorem mapExcept_error_of_mem {ε β γ : Type} (f : β → Except ε γ)
    {l : List β} {x : β} {e₀ : ε} (hx : x ∈ l) (he : f x = .error e₀) :
    ∃ e, mapExcept f l = .error e := by
  induction l with
  | nil => cases hx
  | cons y ys ih =>
    rw [mapExcept]
    cases hy : f y with
    | error e => exact ⟨e, rfl⟩
    | ok v =>
      rcases List.mem_cons.mp hx with rfl | hx'
      · rw [hy] at he
        cases he
      · obtain ⟨e, hrec⟩ := ih hx'
        rw [hrec]
        exact ⟨e, rfl⟩

/-- Every element of a successful traversal's output comes from applying the
function to some input element. -/
theorem mapExcept_ok_forall {ε β γ : Type} (f : β → Except ε γ)
    {l : List β} {ys : List γ} (h : mapExcept f l = .ok ys) :
    ∀ y ∈ ys, ∃ x ∈ l, f x = .ok y := by
  induction l generalizing ys with
  | nil =>
    rw [mapExcept] at h
    cases h
    intro y hy
    cases hy
  | cons x xs ih =>
    rw [mapExcept] at h
    cases hx : f x with
    | error e => rw [hx] at h; cases h
    | ok v =>
      rw [hx] at h
      cases hrec : mapExcept f xs with
      | error e => rw [hrec] at h; cases h
      | ok vs =>
        rw [hrec] at h
        cases h
        intro y hy
        rcases List.mem_cons.mp hy with rfl | hy'
        · exact ⟨x, List.mem_cons_self _ _, hx⟩
        · obtain ⟨x', hx', hfx'⟩ := ih hrec y hy'
          exact ⟨x', List.mem_cons_of_mem _ hx', hfx'⟩

/-- Every error of the traversal is the error of some input element. -/
theorem mapExcept_error_shape {ε β γ : Type} (f : β → Except ε γ)
    {l : List β} {e : ε} (h : mapExcept f l = .error e) :
    ∃ x ∈ l, f x = .error e := by
  induction l with
  | nil => rw [mapExcept] at h; cases h
  | cons x xs ih =>
    rw [mapExcept] at h
    cases hx : f x with
    | error e' =>
      rw [hx] at h
      cases h
      exact ⟨x, List.mem_cons_self _ _, hx⟩
    | ok v =>
      rw [hx] at h
      cases hrec : mapExcept f xs with
      | error e' =>
        rw [hrec] at h
        cases h
        obtain ⟨x', hx', he'⟩ := ih hrec
        exact ⟨x', List.mem_cons_of_mem _ hx', he'⟩
      | ok vs => rw [hrec] at h; cases h

/-- A successful traversal commutes with projections that the function
preserves. -/
theorem mapExcept_ok_map {ε β γ δ : Type} (f : β → Except ε γ)
    {l : List β} {ys : List γ} (h : mapExcept f l = .ok ys)
    (g : γ → δ) (g' : β → δ) (hg : ∀ x y, f x = .ok y → g y = g' x) :
    ys.map g = l.map g' := by
  induction l generalizing ys with
  | nil =>
    rw [mapExcept] at h
    cases h
    rfl
  | cons x xs ih =>
    rw [mapExcept] at h
    cases hx : f x with
    | error e => rw [hx] at h; cases h
    | ok v =>
      rw [hx] at h
      cases hrec : mapExcept f xs with
      | error e => rw [hrec] at h; cases h
      | ok vs =>
        rw [hrec] at h
        cases h
        simp only [List.map_cons]
        rw [hg x v hx, ih hrec]

/-! ## OpenMVG join

Modelled from the spec (section 4.3): `OpenMVGJSONFileHandler.parse_openmvg_file`
(called at `photogrammetry_import_op.py` lines 180-181) is not under `src/`.
The parser joins the views array against the intrinsics array by the
referenced intrinsics-group id; a view whose referenced id is absent is a
fatal `MissingReference` parse failure. -/

/-- Modelled from the spec: one entry of the OpenMVG intrinsics array. -/
structure MvgIntrinsic (α : Type) where
  id : Nat
  focal : α
  width : Nat
  height : Nat

/-- Modelled from the spec: one entry of the OpenMVG views array,
referencing an intrinsics-group id. -/
structure MvgView where
  id : Nat
  id_intrinsic : Nat
  filename : String
deriving DecidableEq

/-- Modelled from the spec: join one view against the intrinsics array,
resolving the image filename against `image_dp` when it is not absolute;
a miss is a fatal `MissingReference`. -/
def joinViewIntrinsics {α : Type} [CommRing α] (image_dp : String)
    (intrinsics : List (MvgIntrinsic α)) (v : MvgView) :
    Except ParseErr (Camera α) :=
  match intrinsics.find? (fun i => i.id == v.id_intrinsic) with
  | some i =>
      .ok ⟨v.id, pyJoin image_dp v.filename, some i.width, some i.height,
        ![1, 0, 0, 0], ![0, 0, 0]⟩
  | none => .error (.missingReference "intrinsics" v.id_intrinsic)

/-- Modelled from the spec: the camera-producing part of the OpenMVG parse —
every view is joined against the intrinsics array, and the first missing
reference aborts the parse. -/
def parse_openmvg {α : Type} [CommRing α] (image_dp : String)
    (intrinsics : List (MvgIntrinsic α)) (views : List MvgView) :
    Except ParseErr (List (Camera α)) :=
  mapExcept (joinViewIntrinsics image_dp intrinsics) views

/-- C5: if any view references an intrinsics-group id absent from the
intrinsics array, the OpenMVG parse returns a `MissingReference` error to
the caller — the view is not skipped, and the parse for that input never
succeeds. -/
theorem c5_missing_intrinsics_fatal {α : Type} [CommRing α] (image_dp : String)
    (intrinsics : List (MvgIntrinsic α)) (views : List MvgView)
    (v : MvgView) (hv : v ∈ views)
    (hmiss : ∀ i ∈ intrinsics, i.id ≠ v.id_intrinsic) :
    (∃ sect ref_id, parse_openmvg image_dp intrinsics views =
      .error (.missingReference sect ref_id)) ∧
    ∀ cams, parse_openmvg image_dp intrinsics views ≠ .ok cams := by
  have hfind : intrinsics.find? (fun i => i.id == v.id_intrinsic) = none := by
    rw [List.find?_eq_none]
    intro i hi
    simpa using hmiss i hi
  have herr : joinViewIntrinsics image_dp intrinsics v =
      .error (.missingReference "intrinsics" v.id_intrinsic) := by
    rw [joinViewIntrinsics, hfind]
  obtain ⟨e, he⟩ :=
    mapExcept_error_of_mem (joinViewIntrinsics image_dp intrinsics) hv herr
  have honly : ∀ w (e' : ParseErr),
      joinViewIntrinsics image_dp intrinsics w = .error e' →
      ∃ sect ref_id, e' = .missingReference sect ref_id := by
    intro w e' hw
    rw [joinViewIntrinsics] at hw
    cases hfw : intrinsics.find? (fun i => i.id == w.id_intrinsic) with
    | some i => rw [hfw] at hw; cases hw
    | none =>
      rw [hfw] at hw
      cases hw
      exact ⟨"intrinsics", w.id_intrinsic, rfl⟩
  obtain ⟨w, _, hw⟩ := mapExcept_error_shape _ he
  obtain ⟨sect, ref_id, rfl⟩ := honly w e hw
  refine ⟨⟨sect, ref_id, he⟩, ?_⟩
  intro cams hcams
  rw [parse_openmvg] at hcams
  rw [he] at hcams
  cases hcams

/-- C5 witness: one intrinsics group with id 0 and one view referencing the
absent intrinsics id 7: the parse fails with `MissingReference` and never
returns a camera list. -/
theorem c5_missing_intrinsics_fatal_witness :
    (⟨3, 7, "v.jpg"⟩ : MvgView) ∈ [(⟨3, 7, "v.jpg"⟩ : MvgView)] ∧
    (∀ i ∈ ([⟨0, 1, 640, 480⟩] : List (MvgIntrinsic ℤ)),
      i.id ≠ (⟨3, 7, "v.jpg"⟩ : MvgView).id_intrinsic) ∧
    ((∃ sect ref_id, parse_openmvg (α := ℤ) "/imgs" [⟨0, 1, 640, 480⟩]
        [⟨3, 7, "v.jpg"⟩] = .error (.missingReference sect ref_id)) ∧
      ∀ cams, parse_openmvg (α := ℤ) "/imgs" [⟨0, 1, 640, 480⟩]
        [⟨3, 7, "v.jpg"⟩] ≠ .ok cams) :=
  ⟨by decide, by decide,
    c5_missing_intrinsics_fatal "/imgs" [⟨0, 1, 640, 480⟩] [⟨3, 7, "v.jpg"⟩]
      ⟨3, 7, "v.jpg"⟩ (by decide) (by decide)⟩

/-! ## PLY parser

Modelled from the spec (section 4.5): `PLYFileHandler.parse_ply_file`
(called at `photogrammetry_import_op.py` line 260) is not under `src/`.
The parse is driven by the header's declared property list; it fails on an
unrecognized property type, a missing position property, or a vertex count
that disagrees with the remaining data, and otherwise builds each point
from its data row at the header-declared columns. -/

/-- Modelled from the spec: one typed property declaration of a PLY
header. -/
structure PlyProperty where
  ptype : String
  pname : String
deriving DecidableEq

/-- Modelled from the spec: a PLY header — declared vertex count and the
ordered, typed per-vertex property list. -/
structure PlyHeader where
  vertex_count : Nat
  properties : List PlyProperty
deriving DecidableEq

/-- The property types the PLY parser recognizes. -/
def plyKnownTypes : List String :=
  ["char", "uchar", "short", "ushort", "int", "uint", "int8", "uint8",
   "int16", "uint16", "int32", "uint32", "float", "float32", "double",
   "float64"]

/-- Index of a named column in the header's declared property order. -/
def colIndex (pname : String) : List String → Option Nat
  | [] => none
  | n :: ns => if n == pname then some 0 else (colIndex pname ns).map (· + 1)

/-- Read the value of a named property from a data row, driven by the
header's declared property order. -/
def plyValue {α : Type} [CommRing α] (h : PlyHeader) (row : List α)
    (pname : String) : α :=
  match colIndex pname (h.properties.map PlyProperty.pname) with
  | some j => row.getD j 0
  | none => 0

/-- Position of a vertex row, from the `x`/`y`/`z` columns. -/
def plyPosition {α : Type} [CommRing α] (h : PlyHeader) (row : List α) :
    Fin 3 → α :=
  ![plyValue h row "x", plyValue h row "y", plyValue h row "z"]

/-- Color of a vertex row: the `red`/`green`/`blue` columns when declared,
the fixed neutral color otherwise. -/
def plyColor {α : Type} [CommRing α] (neutral : Fin 3 → α) (h : PlyHeader)
    (row : List α) : Fin 3 → α :=
  if (h.properties.map PlyProperty.pname).contains "red" &&
      (h.properties.map PlyProperty.pname).contains "green" &&
      (h.properties.map PlyProperty.pname).contains "blue" then
    ![plyValue h row "red", plyValue h row "green", plyValue h row "blue"]
  else neutral

/-- Modelled from the spec: the PLY parse.  The body is abstracted as the
list of decoded data rows; the parse fails on an unrecognized property
type, a missing position property, or a vertex count that disagrees with
the data, and otherwise builds one `Point` per row. -/
def parse_ply {α : Type} [CommRing α] (neutral : Fin 3 → α) (h : PlyHeader)
    (rows : List (List α)) : Except ParseErr (List (Point α)) :=
  if h.properties.any fun p => !(plyKnownTypes.contains p.ptype) then
    .error (.malformedFile "unrecognized property type")
  else if !((h.properties.map PlyProperty.pname).contains "x" &&
      (h.properties.map PlyProperty.pname).contains "y" &&
      (h.properties.map PlyProperty.pname).contains "z") then
    .error (.malformedFile "missing position property")
  else if rows.length != h.vertex_count ||
      rows.any fun r => r.length != h.properties.length then
    .error (.malformedFile "vertex count disagrees with remaining data")
  else
    .ok (rows.enum.map fun ir =>
      ⟨ir.1, plyPosition h ir.2, plyColor neutral h ir.2, []⟩)

/-- A name occurring in a column list has a column index within bounds. -/
theorem colIndex_of_mem {pname : String} :
    ∀ {l : List String}, pname ∈ l →
      ∃ j, colIndex pname l = some j ∧ j < l.length := by
  intro l
  induction l with
  | nil => intro h; cases h
  | cons n ns ih =>
    intro h
    by_cases hn : (n == pname) = true
    · exact ⟨0, by rw [colIndex, if_pos hn], by simp⟩
    · have hmem : pname ∈ ns := by
        rcases List.mem_cons.mp h with rfl | h'
        · exact absurd (by simp) hn
        · exact h'
      obtain ⟨j, hj, hjl⟩ := ih hmem
      refine ⟨j + 1, by rw [colIndex, if_neg hn, hj]; rfl, ?_⟩
      simpa using Nat.succ_lt_succ hjl

/-- A declared property's value is read from the data row itself. -/
theorem plyValue_mem {α : Type} [CommRing α] (h : PlyHeader) (row : List α)
    (pname : String) (hmem : pname ∈ h.properties.map PlyProperty.pname)
    (hlen : row.length = h.properties.length) :
    ∃ k, ∃ hk : k < row.length, plyValue h row pname = row.get ⟨k, hk⟩ := by
  obtain ⟨j, hj, hjl⟩ := colIndex_of_mem hmem
  rw [List.length_map] at hjl
  refine ⟨j, by rw [hlen]; exact hjl, ?_⟩
  rw [plyValue, hj]
  exact List.getD_eq_get _ _ _

/-- C6: the PLY parse declares a parse failure when the header declares an
unrecognized property type, when the position property is missing, or when
the declared vertex count disagrees with the actual remaining data; and
whenever it succeeds, it returns exactly the declared number of points whose
position components are all read from the corresponding data row — never
zeroed or fabricated. -/
theorem c6_ply_parse_failures {α : Type} [CommRing α] (neutral : Fin 3 → α)
    (h : PlyHeader) (rows : List (List α)) :
    ((∃ p ∈ h.properties, p.ptype ∉ plyKnownTypes) →
      ∃ m, parse_ply neutral h rows = .error (.malformedFile m)) ∧
    (¬ ("x" ∈ h.properties.map PlyProperty.pname ∧
        "y" ∈ h.properties.map PlyProperty.pname ∧
        "z" ∈ h.properties.map PlyProperty.pname) →
      ∃ m, parse_ply neutral h rows = .error (.malformedFile m)) ∧
    (rows.length ≠ h.vertex_count →
      ∃ m, parse_ply neutral h rows = .error (.malformedFile m)) ∧
    (∀ pts, parse_ply neutral h rows = .ok pts →
      pts.length = h.vertex_count ∧
      ∀ i (h1 : i < pts.length) (h2 : i < rows.length) (j : Fin 3),
        ∃ k, ∃ hk : k < (rows.get ⟨i, h2⟩).length,
          (pts.get ⟨i, h1⟩).position j = (rows.get ⟨i, h2⟩).get ⟨k, hk⟩) := by
  refine ⟨?_, ?_, ?_, ?_⟩
  · rintro ⟨p, hp, hpt⟩
    have hc1 : (h.properties.any fun p => !(plyKnownTypes.contains p.ptype))
        = true :=
      List.any_eq_true.mpr ⟨p, hp, by simpa using hpt⟩
    exact ⟨_, by rw [parse_ply, if_pos hc1]⟩
  · intro hpos
    by_cases hc1 : (h.properties.any fun p =>
        !(plyKnownTypes.contains p.ptype)) = true
    · exact ⟨_, by rw [parse_ply, if_pos hc1]⟩
    · have hc2 : (!((h.properties.map PlyProperty.pname).contains "x" &&
          (h.properties.map PlyProperty.pname).contains "y" &&
          (h.properties.map PlyProperty.pname).contains "z")) = true := by
        rw [Bool.not_eq_true']
        rcases hb : (h.properties.map PlyProperty.pname).contains "x" &&
            (h.properties.map PlyProperty.pname).contains "y" &&
            (h.properties.map PlyProperty.pname).contains "z" with _ | _
        · rfl
        · exfalso
          apply hpos
          have hb' := hb
          rw [Bool.and_eq_true, Bool.and_eq_true] at hb'
          refine ⟨by simpa using hb'.1.1, by simpa using hb'.1.2,
            by simpa using hb'.2⟩
      exact ⟨_, by rw [parse_ply, if_neg hc1, if_pos hc2]⟩
  · intro hrows
    by_cases hc1 : (h.properties.any fun p =>
        !(plyKnownTypes.contains p.ptype)) = true
    · exact ⟨_, by rw [parse_ply, if_pos hc1]⟩
    · by_cases hc2 : (!((h.properties.map PlyProperty.pname).contains "x" &&
          (h.properties.map PlyProperty.pname).contains "y" &&
          (h.properties.map PlyProperty.pname).contains "z")) = true
      · exact ⟨_, by rw [parse_ply, if_neg hc1, if_pos hc2]⟩
      · have hc3 : (rows.length != h.vertex_count ||
            rows.any fun r => r.length != h.properties.length) = true := by
          simp only [Bool.or_eq_true, bne_iff_ne]
          exact Or.inl hrows
        exact ⟨_, by rw [parse_ply, if_neg hc1, if_neg hc2, if_pos hc3]⟩
  · intro pts hok
    rw [parse_ply] at hok
    split_ifs at hok with hc1 hc2 hc3
    · have hc3' : (rows.length != h.vertex_count) = false ∧
          (rows.any fun r => r.length != h.properties.length) = false := by
        rw [← Bool.or_eq_false_iff]
        exact Bool.not_eq_true _ ▸ Bool.eq_false_iff.mpr hc3
      have hcount : rows.length = h.vertex_count :=
        bne_eq_false_iff_eq.mp hc3'.1
      have hrowlen : ∀ r ∈ rows, r.length = h.properties.length := by
        intro r hr
        have := List.any_eq_false.mp hc3'.2 r hr
        simpa using this
      have hxyz : "x" ∈ h.properties.map PlyProperty.pname ∧
          "y" ∈ h.properties.map PlyProperty.pname ∧
          "z" ∈ h.properties.map PlyProperty.pname := by
        have hc2' := hc2
        rw [Bool.not_eq_true, Bool.not_eq_false'] at hc2'
        rw [Bool.and_eq_true, Bool.and_eq_true] at hc2'
        exact ⟨by simpa using hc2'.1.1, by simpa using hc2'.1.2,
          by simpa using hc2'.2⟩
      cases hok
      constructor
      · rw [List.length_map, List.enum_length, hcount]
      · intro i h1 h2 j
        have hpt : (rows.enum.map fun ir =>
            (⟨ir.1, plyPosition h ir.2, plyColor neutral h ir.2, []⟩ :
              Point α)).get ⟨i, h1⟩ =
            (⟨i, plyPosition h (rows.get ⟨i, h2⟩),
              plyColor neutral h (rows.get ⟨i, h2⟩), []⟩ : Point α) := by
          simp only [List.get_eq_getElem, List.getElem_map, List.getElem_enum]
        rw [hpt]
        have hlen : (rows.get ⟨i, h2⟩).length = h.properties.length :=
          hrowlen _ (List.get_mem _ _ _)
        have hval : ∀ pname ∈ h.properties.map PlyProperty.pname,
            ∃ k, ∃ hk : k < (rows.get ⟨i, h2⟩).length,
              plyValue h (rows.get ⟨i, h2⟩) pname =
                (rows.get ⟨i, h2⟩).get ⟨k, hk⟩ := fun pname hm =>
          plyValue_mem h _ pname hm hlen
        match j with
        | 0 =>
          obtain ⟨k, hk, hv⟩ := hval "x" hxyz.1
          exact ⟨k, hk, by simpa [plyPosition] using hv⟩
        | 1 =>
          obtain ⟨k, hk, hv⟩ := hval "y" hxyz.2.1
          exact ⟨k, hk, by simpa [plyPosition] using hv⟩
        | 2 =>
          obtain ⟨k, hk, hv⟩ := hval "z" hxyz.2.2
          exact ⟨k, hk, by simpa [plyPosition] using hv⟩

/-- C6 witness: concrete headers over `ℤ` exercising all three failure
branches (unknown property type `quad`, missing position property, vertex
count 2 with a single row) and one successful parse whose point positions
are read from the data row. -/
theorem c6_ply_parse_failures_witness :
    ((∃ p ∈ ([⟨"quad", "x"⟩, ⟨"float", "y"⟩, ⟨"float", "z"⟩] :
        List PlyProperty), p.ptype ∉ plyKnownTypes) ∧
      ∃ m, parse_ply (α := ℤ) ![9, 9, 9]
        ⟨1, [⟨"quad", "x"⟩, ⟨"float", "y"⟩, ⟨"float", "z"⟩]⟩ [[0, 0, 0]] =
          .error (.malformedFile m)) ∧
    ((¬ ("x" ∈ ([⟨"float", "nx"⟩] : List PlyProperty).map PlyProperty.pname ∧
        "y" ∈ ([⟨"float", "nx"⟩] : List PlyProperty).map PlyProperty.pname ∧
        "z" ∈ ([⟨"float", "nx"⟩] : List PlyProperty).map PlyProperty.pname)) ∧
      ∃ m, parse_ply (α := ℤ) ![9, 9, 9] ⟨1, [⟨"float", "nx"⟩]⟩ [[0]] =
        .error (.malformedFile m)) ∧
    (([[1, 2, 3]] : List (List ℤ)).length ≠ 2 ∧
      ∃ m, parse_ply (α := ℤ) ![9, 9, 9]
        ⟨2, [⟨"float", "x"⟩, ⟨"float", "y"⟩, ⟨"float", "z"⟩]⟩ [[1, 2, 3]] =
          .error (.malformedFile m)) ∧
    (([⟨0, ![5, 6, 7], ![9, 9, 9], []⟩] : List (Point ℤ)).length = 1 ∧
      ∀ i (h1 : i < ([⟨0, ![5, 6, 7], ![9, 9, 9], []⟩] :
          List (Point ℤ)).length)
        (h2 : i < ([[5, 6, 7]] : List (List ℤ)).length) (j : Fin 3),
        ∃ k, ∃ hk : k < (([[5, 6, 7]] : List (List ℤ)).get ⟨i, h2⟩).length,
          ((([⟨0, ![5, 6, 7], ![9, 9, 9], []⟩] : List (Point ℤ)).get
            ⟨i, h1⟩).position j) =
            (([[5, 6, 7]] : List (List ℤ)).get ⟨i, h2⟩).get ⟨k, hk⟩) :=
  ⟨⟨by decide,
      (c6_ply_parse_failures ![9, 9, 9]
        ⟨1, [⟨"quad", "x"⟩, ⟨"float", "y"⟩, ⟨"float", "z"⟩]⟩ [[0, 0, 0]]).1
        (by decide)⟩,
    ⟨by decide,
      (c6_ply_parse_failures ![9, 9, 9] ⟨1, [⟨"float", "nx"⟩]⟩ [[0]]).2.1
        (by decide)⟩,
    ⟨by decide,
      (c6_ply_parse_failures ![9, 9, 9]
        ⟨2, [⟨"float", "x"⟩, ⟨"float", "y"⟩, ⟨"float", "z"⟩]⟩
        [[1, 2, 3]]).2.2.1 (by decide)⟩,
    (c6_ply_parse_failures ![9, 9, 9]
      ⟨1, [⟨"float", "x"⟩, ⟨"float", "y"⟩, ⟨"float", "z"⟩]⟩
      [[5, 6, 7]]).2.2.2 [⟨0, ![5, 6, 7], ![9, 9, 9], []⟩] rfl⟩

/-! ## Unified camera construction

Modelled from the spec (sections 2-3): every parser produces its cameras
through the unified data model, whose invariant (section 3) demands a
unit-norm rotation quaternion, positive width/height when present, and id
uniqueness within one import.  The construction validates raw parsed camera
records defensively, failing on malformed input; unit norm is exact in the
model ("within floating-point tolerance" idealized to exact arithmetic). -/

/-- Squared norm of a quaternion `(w, x, y, z)`. -/
def quatNormSq {α : Type} [CommRing α] (q : Fin 4 → α) : α :=
  q 0 * q 0 + q 1 * q 1 + q 2 * q 2 + q 3 * q 3

/-- A raw per-camera record as decoded by a format parser, before
unification. -/
structure RawCamera (α : Type) where
  id : Nat
  image_path : String
  width : Option Nat
  height : Option Nat
  rotation : Fin 4 → α
  translation : Fin 3 → α

/-- Modelled from the spec: construct one unified `Camera` from a raw
record, validating the section-3 invariant (unit-norm rotation, positive
dimensions when present). -/
def mkUnifiedCamera {α : Type} [CommRing α] [DecidableEq α]
    (r : RawCamera α) : Except ParseErr (Camera α) :=
  if quatNormSq r.rotation ≠ 1 then
    .error (.malformedFile "camera rotation is not a unit quaternion")
  else if !(r.width.all fun w => decide (0 < w)) then
    .error (.malformedFile "non-positive camera width")
  else if !(r.height.all fun w => decide (0 < w)) then
    .error (.malformedFile "non-positive camera height")
  else
    .ok ⟨r.id, r.image_path, r.width, r.height, r.rotation, r.translation⟩

/-- Modelled from the spec: the camera set of one import, built from the
raw parsed records; duplicate ids are rejected, and the first invalid
record aborts the parse. -/
def unifyCameras {α : Type} [CommRing α] [DecidableEq α]
    (rs : List (RawCamera α)) : Except ParseErr (List (Camera α)) :=
  if (rs.map RawCamera.id).Nodup then mapExcept mkUnifiedCamera rs
  else .error (.malformedFile "duplicate camera id")

/-- C8: every camera of a successfully unified import satisfies the
section-3 invariant — its rotation quaternion is unit-norm (exactly, in the
model), its width and height are positive when present, and its id is
unique within the import. -/
theorem c8_camera_invariants {α : Type} [CommRing α] [DecidableEq α]
    (rs : List (RawCamera α)) (cams : List (Camera α))
    (hok : unifyCameras rs = .ok cams) :
    (∀ c ∈ cams, quatNormSq c.rotation = 1 ∧
      (∀ w, c.width = some w → 0 < w) ∧
      (∀ v, c.height = some v → 0 < v)) ∧
    (cams.map Camera.id).Nodup := by
  rw [unifyCameras] at hok
  split_ifs at hok with hnd
  have hcam : ∀ (r : RawCamera α) (c : Camera α),
      mkUnifiedCamera r = .ok c →
      c.id = r.id ∧ quatNormSq c.rotation = 1 ∧
        (∀ w, c.width = some w → 0 < w) ∧
        (∀ v, c.height = some v → 0 < v) := by
    intro r c hfr
    rw [mkUnifiedCamera] at hfr
    split_ifs at hfr with h1 h2 h3
    cases hfr
    refine ⟨rfl, not_ne_iff.mp h1, ?_, ?_⟩
    · intro w hw
      have h2' : (r.width.all fun w => decide (0 < w)) = true := by
        have := h2
        rwa [Bool.not_eq_true, Bool.not_eq_false'] at this
      have hw' : r.width = some w := hw
      rw [hw'] at h2'
      exact of_decide_eq_true (by simpa using h2')
    · intro v hv
      have h3' : (r.height.all fun w => decide (0 < w)) = true := by
        have := h3
        rwa [Bool.not_eq_true, Bool.not_eq_false'] at this
      have hv' : r.height = some v := hv
      rw [hv'] at h3'
      exact of_decide_eq_true (by simpa using h3')
  constructor
  · intro c hc
    obtain ⟨r, _, hfr⟩ := mapExcept_ok_forall _ hok c hc
    exact (hcam r c hfr).2
  · have hmap := mapExcept_ok_map _ hok Camera.id RawCamera.id
      (fun r c hfr => (hcam r c hfr).1)
    rw [hmap]
    exact hnd

/-- C8 witness: two `ℤ`-valued raw cameras with distinct ids, unit
quaternions and positive/absent dimensions unify successfully and satisfy
the invariant. -/
theorem c8_camera_invariants_witness :
    unifyCameras (α := ℤ)
      [⟨0, "a.jpg", some 640, some 480, ![1, 0, 0, 0], ![0, 0, 0]⟩,
       ⟨1, "b.jpg", none, none, ![0, 1, 0, 0], ![0, 0, 0]⟩] =
      .ok [⟨0, "a.jpg", some 640, some 480, ![1, 0, 0, 0], ![0, 0, 0]⟩,
        ⟨1, "b.jpg", none, none, ![0, 1, 0, 0], ![0, 0, 0]⟩] ∧
    (∀ c ∈ ([⟨0, "a.jpg", some 640, some 480, ![1, 0, 0, 0], ![0, 0, 0]⟩,
        ⟨1, "b.jpg", none, none, ![0, 1, 0, 0], ![0, 0, 0]⟩] :
          List (Camera ℤ)),
      quatNormSq c.rotation = 1 ∧
        (∀ w, c.width = some w → 0 < w) ∧
        (∀ v, c.height = some v → 0 < v)) ∧
    (([⟨0, "a.jpg", some 640, some 480, ![1, 0, 0, 0], ![0, 0, 0]⟩,
        ⟨1, "b.jpg", none, none, ![0, 1, 0, 0], ![0, 0, 0]⟩] :
          List (Camera ℤ)).map Camera.id).Nodup :=
  ⟨by rfl,
    c8_camera_invariants
      [⟨0, "a.jpg", some 640, some 480, ![1, 0, 0, 0], ![0, 0, 0]⟩,
       ⟨1, "b.jpg", none, none, ![0, 1, 0, 0], ![0, 0, 0]⟩]
      [⟨0, "a.jpg", some 640, some 480, ![1, 0, 0, 0], ![0, 0, 0]⟩,
       ⟨1, "b.jpg", none, none, ![0, 1, 0, 0], ![0, 0, 0]⟩] (by rfl)⟩

/-- C9: the user-supplied image-directory override always wins; the fallback
search runs only on the empty string. -/
theorem c9_image_dir_override_wins (isDir : String → Bool)
    (reconstruction_fp image_dp : String) (h : image_dp ≠ "") :
    get_default_image_path isDir reconstruction_fp image_dp = image_dp := by
  simp [get_default_image_path, h]

/-- C9 witness: a concrete nonempty image directory is returned unchanged. -/
theorem c9_image_dir_override_wins_witness :
    ("/my/images" : String) ≠ "" ∧
      get_default_image_path (fun _ => true) "/rec/recon.nvm" "/my/images" =
        "/my/images" :=
  ⟨by decide,
    c9_image_dir_override_wins (fun _ => true) "/rec/recon.nvm" "/my/images"
      (by decide)⟩

/-- C1 counterexample: with no image directory supplied, a reconstruction
file `/rec/recon.nvm` and a filesystem in which `/rec/images` is a directory,
the code picks `/rec/images`, not the reconstruction file's own directory
`/rec` — so the reconstruction file's directory does NOT take precedence
over the `images` subdirectory, contrary to the claim. -/
theorem c1_counterexample :
    (fun s => s == "/rec/images") (pyJoin (pyDirname "/rec/recon.nvm") "images")
        = true ∧
      get_default_image_path (fun s => s == "/rec/images") "/rec/recon.nvm" ""
        = "/rec/images" ∧
      get_default_image_path (fun s => s == "/rec/images") "/rec/recon.nvm" ""
        ≠ pyDirname "/rec/recon.nvm" := by
  refine ⟨by decide, by decide, by decide⟩

/-- C1 (amended): when no image directory is supplied, the conventional
`images` subdirectory of the reconstruction file's directory takes
precedence when it exists; the reconstruction file's own directory is
used only when that subdirectory does not exist. -/
theorem c1_fallback_order (isDir : String → Bool) (reconstruction_fp : String) :
    (isDir (pyJoin (pyDirname reconstruction_fp) "images") = true →
      get_default_image_path isDir reconstruction_fp "" =
        pyJoin (pyDirname reconstruction_fp) "images") ∧
    (isDir (pyJoin (pyDirname reconstruction_fp) "images") = false →
      get_default_image_path isDir reconstruction_fp "" =
        pyDirname reconstruction_fp) := by
  constructor <;> intro h <;> simp [get_default_image_path, h]

/-- C1 witness: both branches of the amended fallback order at concrete
inputs. -/
theorem c1_fallback_order_witness :
    ((fun s => s == "/rec/images") (pyJoin (pyDirname "/rec/recon.nvm") "images")
        = true ∧
      get_default_image_path (fun s => s == "/rec/images") "/rec/recon.nvm" "" =
        pyJoin (pyDirname "/rec/recon.nvm") "images") ∧
    ((fun _ => false) (pyJoin (pyDirname "/rec/recon.nvm") "images") = false ∧
      get_default_image_path (fun _ => false) "/rec/recon.nvm" "" =
        pyDirname "/rec/recon.nvm") :=
  ⟨⟨by decide,
      (c1_fallback_order (fun s => s == "/rec/images") "/rec/recon.nvm").1
        (by decide)⟩,
    ⟨by decide,
      (c1_fallback_order (fun _ => false) "/rec/recon.nvm").2 (by decide)⟩⟩
